import Mathlib

/-!
Verification of the revision diff engine of `go-perforce` (src/toolkit.go)
against its natural-language specification.

The Go code is shallowly embedded: pure computations become Lean functions,
effectful steps (file opens, reads from an `io.Reader`, the `p4` process
invocation) become explicit inputs describing the outcome of each effect.
Go's machine `int` is modelled as `Int` (all counts involved stay far below
2^63, and no claim depends on wraparound); Go byte values are modelled as
`Nat` below 256.  A Go function that returns `(value, err)` is modelled as a
`GoRet` which is either a returned pair or a runtime crash (Go panic).
-/

namespace GoPerforce

/-- Result structure `T_DiffRes` from src/toolkit.go lines 21-31.
Field names follow the source.  Go's zero value initialisation of the named
return values is `T_DiffRes.zero` below. -/
structure T_DiffRes where
  Utf16crlf    : Bool
  FileHR       : String
  NbLinesHR    : Int
  EncodingHR   : String
  FileWS       : String
  NbLinesWS    : Int
  AddedLines   : Int
  RemovedLines : Int
  ChangedLines : Int
deriving DecidableEq

/-- Zero value of `T_DiffRes`, as produced by Go for a named return value. -/
def T_DiffRes.zero : T_DiffRes :=
  { Utf16crlf := false, FileHR := "", NbLinesHR := 0, EncodingHR := "",
    FileWS := "", NbLinesWS := 0, AddedLines := 0, RemovedLines := 0,
    ChangedLines := 0 }

/-- Outcome of a Go function returning `(value, err)`: either a normal
return carrying the value and an optional error, or a runtime crash
(a Go panic, e.g. an out-of-range slice index). -/
inductive GoRet (α : Type) where
  | ret (val : α) (err : Option String)
  | crash (msg : String)
deriving DecidableEq

/-- Value component of a normal Go return (zero value on a crash). -/
def retVal : GoRet T_DiffRes → T_DiffRes
  | .ret v _ => v
  | .crash _ => T_DiffRes.zero

/-- Error component of a normal Go return. -/
def retErr : GoRet T_DiffRes → Option String
  | .ret _ e => e
  | .crash m => some m

/-- Whether the call crashed (panicked) instead of returning. -/
def isCrash {α : Type} : GoRet α → Bool
  | .ret _ _ => false
  | .crash _ => true

/-- Go `x << 1` on the parsed line counts (src/toolkit.go lines 68-69).
The counts reaching this operation come from `strconv.Atoi` and are far
below 2^62, so 64-bit wraparound is not modelled. -/
def goShl1 (x : Int) : Int := 2 * x

/-! ### The line counter (src/toolkit.go lines 351-379) -/

/-- Terminal condition delivered by one `Read` call of the `io.Reader`:
end of stream (`io.EOF`) or a genuine read failure. -/
inductive ReadEnd where
  | eof
  | fail (msg : String)
deriving DecidableEq

/-- One `Read` call of the `io.Reader`: the bytes placed in the buffer
(`buf[:c]`) together with the error value returned by that call
(`none` means a successful read with more data to come). -/
abbrev ReadStep := List Nat × Option ReadEnd

/-- UTF-16-LE CR/LF byte sequence (src/toolkit.go line 355). -/
def utf16LESep : List Nat := [13, 0, 10, 0]

/-- UTF-16-BE CR/LF byte sequence (src/toolkit.go line 356). -/
def utf16BESep : List Nat := [0, 13, 0, 10]

/-- Whether `sep` occurs at the start of `l`. -/
def startsWithSeq : List Nat → List Nat → Bool
  | _, [] => true
  | [], _ :: _ => false
  | a :: as, b :: bs => a == b && startsWithSeq as bs

/-- Whether `sep` occurs contiguously anywhere inside `l`; this is
`bytes.Count(l, sep) >= 1` from src/toolkit.go line 363. -/
def containsSeq (l sep : List Nat) : Bool :=
  match l with
  | [] => startsWithSeq [] sep
  | _ :: tl => startsWithSeq l sep || containsSeq tl sep

/-- Number of occurrences of byte `b` in `l`; this is
`bytes.Count(l, []byte{b})` for a single-byte separator
(src/toolkit.go line 368). -/
def countOcc (l : List Nat) (b : Nat) : Nat :=
  l.countP (fun x => x == b)

/-- Flag update of one loop iteration (src/toolkit.go lines 361-366): when
the flag is still unset, set it exactly when one of the two separators
occurs in the chunk. -/
def updFlag (u : Bool) (data : List Nat) : Bool :=
  if !u then
    (if containsSeq data utf16LESep || containsSeq data utf16BESep then true else u)
  else u

/-- Loop of `lineCounter` (src/toolkit.go lines 358-377): one iteration per
`Read` call, updating the flag, then the count, then switching on the read
error.  An exhausted read list corresponds to the unreachable final
`return` on line 378. -/
def lineCounterLoop : List ReadStep → Nat → Bool → Nat × Bool × Option String
  | [], count, u => (count, u, none)
  | (data, e) :: rest, count, u =>
    match e with
    | some .eof => (count + countOcc data 10, updFlag u data, none)
    | some (.fail msg) => (count + countOcc data 10, updFlag u data, some msg)
    | none => lineCounterLoop rest (count + countOcc data 10) (updFlag u data)

/-- The function `lineCounter` (src/toolkit.go lines 351-379): returns
`(count, utf16crlf, err)` for the given sequence of reads. -/
def lineCounter (reads : List ReadStep) : Nat × Bool × Option String :=
  lineCounterLoop reads 0 false

/-- Chunks actually processed by the loop: everything up to and including
the first read that carries a terminal condition. -/
def processedChunks : List ReadStep → List (List Nat)
  | [] => []
  | (d, none) :: rest => d :: processedChunks rest
  | (d, some _) :: _ => [d]

/-- Concatenation of all bytes processed by the loop: the whole stream
content as the line counter sees it. -/
def delivered (reads : List ReadStep) : List Nat :=
  (processedChunks reads).flatten

/-- Whether the stream delivers a read failure (an error other than
end-of-stream) before terminating. -/
def hasFailure : List ReadStep → Bool
  | [] => false
  | (_, none) :: rest => hasFailure rest
  | (_, some .eof) :: _ => false
  | (_, some (.fail _)) :: _ => true

/-! ### The summary-diff output matcher (src/toolkit.go lines 157-158)

The Go code matches the tool output against the fixed pattern

  `(?m)(//.*?\.\S*) - (.*?) ====.*\nadd ([0-9]+) chunks ([0-9]+) lines.*\n`
  `deleted ([0-9]+) chunks ([0-9]+) lines.*\nchanged ([0-9]+) chunks `
  `([0-9]+) / ([0-9]+) lines`

with `regexp.FindAllStringSubmatch`; only the first match (`groups[0]`) is
used.  Go's regexp has leftmost-first (backtracking) match semantics, which
the functions below implement for this one pattern: the earliest starting
position wins; the two lazy `.*?` segments grow from the shortest length,
the greedy `\S*` shrinks from the longest run; `.` never matches a newline,
so each `.*\n` segment deterministically skips to just past the next
newline, and each `[0-9]+` group is a maximal digit run (the token after it
always starts with a non-digit). -/

/-- Whitespace in the sense of the regexp class `\s` (so `\S` is its
complement): space, tab, newline, form feed, carriage return. -/
def isSpaceRE (c : Char) : Bool :=
  c = ' ' || c = '\t' || c = '\n' || c = '\x0c' || c = '\r'

/-- Consume the literal `lit` from the front of `s`. -/
def eatLit : List Char → List Char → Option (List Char)
  | s, [] => some s
  | [], _ :: _ => none
  | c :: cs, l :: ls => if c = l then eatLit cs ls else none

/-- Consume a maximal non-empty digit run (`[0-9]+`); returns the digits
and the remainder. -/
def eatDigits (s : List Char) : Option (List Char × List Char) :=
  let ds := s.takeWhile (fun c => c.isDigit)
  if ds.isEmpty then none else some (ds, s.drop ds.length)

/-- Consume `.*\n`: skip to just past the next newline (`.` cannot match a
newline, so the greedy `.*` stops exactly before it). -/
def eatToNextNL : List Char → Option (List Char)
  | [] => none
  | c :: cs => if c = '\n' then some cs else eatToNextNL cs

/-- The seven numeric groups of the three statistics lines. -/
structure StatGroups where
  addC  : List Char
  addL  : List Char
  delC  : List Char
  delL  : List Char
  chgC  : List Char
  chgL1 : List Char
  chgL2 : List Char
deriving DecidableEq

/-- Consume `.*\n` followed by `kw ([0-9]+) chunks ([0-9]+) lines`; this is
the shape of the `add` and `deleted` statistics lines.  Returns the two
digit groups and the remainder. -/
def eatStatLine (kw : List Char) (s0 : List Char) :
    Option ((List Char × List Char) × List Char) := do
  let s1 ← eatToNextNL s0
  let s2 ← eatLit s1 kw
  let p3 ← eatDigits s2
  let s4 ← eatLit p3.2 " chunks ".toList
  let p5 ← eatDigits s4
  let s6 ← eatLit p5.2 " lines".toList
  some ((p3.1, p5.1), s6)

/-- Consume `.*\nchanged ([0-9]+) chunks ([0-9]+) / ([0-9]+) lines`; the
shape of the `changed` statistics line.  Returns the three digit groups and
the remainder. -/
def eatChangedLine (s0 : List Char) :
    Option ((List Char × List Char × List Char) × List Char) := do
  let s1 ← eatToNextNL s0
  let s2 ← eatLit s1 "changed ".toList
  let p3 ← eatDigits s2
  let s4 ← eatLit p3.2 " chunks ".toList
  let p5 ← eatDigits s4
  let s6 ← eatLit p5.2 " / ".toList
  let p7 ← eatDigits s6
  let s8 ← eatLit p7.2 " lines".toList
  some ((p3.1, p5.1, p7.1), s8)

/-- Deterministic tail of the pattern after the `" ===="` literal:
`.*\nadd ([0-9]+) chunks ([0-9]+) lines.*\ndeleted ([0-9]+) chunks
([0-9]+) lines.*\nchanged ([0-9]+) chunks ([0-9]+) / ([0-9]+) lines`. -/
def eatStats (s0 : List Char) : Option (StatGroups × List Char) := do
  let a ← eatStatLine "add ".toList s0
  let d ← eatStatLine "deleted ".toList a.2
  let c ← eatChangedLine d.2
  some ({ addC := a.1.1, addL := a.1.2, delC := d.1.1, delL := d.1.2,
          chgC := c.1.1, chgL1 := c.1.2.1, chgL2 := c.1.2.2 }, c.2)

/-- Lazy `(.*?) ====` followed by the statistics tail: try the `" ===="`
literal at the current position first, extending group 2 one (non-newline)
character at a time on failure.  Returns `(group2, stats, rest)`. -/
def tryL2 (acc2 : List Char) (s : List Char) :
    Option (List Char × StatGroups × List Char) :=
  match (eatLit s " ====".toList).bind fun s1 =>
      (eatStats s1).map fun p => (acc2.reverse, p.1, p.2) with
  | some r => some r
  | none =>
    match s with
    | [] => none
    | c :: cs => if c = '\n' then none else tryL2 (c :: acc2) cs

/-- Greedy `\S*` followed by `" - "` and the rest: `takenRev` holds the
(reversed) run of non-space characters currently claimed by `\S*`; on
failure one character is given back at a time (longest first).  Returns
`(sStarChars, group2, stats, rest)`. -/
def peelBack (takenRev : List Char) (s : List Char) :
    Option (List Char × List Char × StatGroups × List Char) :=
  match (eatLit s " - ".toList).bind fun s1 =>
      (tryL2 [] s1).map fun p => (takenRev.reverse, p.1, p.2.1, p.2.2) with
  | some r => some r
  | none =>
    match takenRev with
    | [] => none
    | c :: tr => peelBack tr (c :: s)

/-- Start the greedy `\S*` at its maximal run. -/
def startPeel (s : List Char) :
    Option (List Char × List Char × StatGroups × List Char) :=
  let run := s.takeWhile (fun c => !isSpaceRE c)
  peelBack run.reverse (s.drop run.length)

/-- Lazy `.*?` of group 1 followed by `\.` and the `\S*` segment: at each
position, if the current character is a dot, first try to continue with the
dot consumed; on failure, absorb one (non-newline) character into the lazy
segment and move on.  Returns `(l1chars, sStarChars, group2, stats, rest)`. -/
def tryL1 (accRev : List Char) (s : List Char) :
    Option (List Char × List Char × List Char × StatGroups × List Char) :=
  match (match s with
      | '.' :: s1 => (startPeel s1).map fun p =>
          (accRev.reverse, p.1, p.2.1, p.2.2.1, p.2.2.2)
      | _ => none) with
  | some r => some r
  | none =>
    match s with
    | [] => none
    | c :: cs => if c = '\n' then none else tryL1 (c :: accRev) cs

/-- Submatch data for one match of the pattern: the full matched text,
group 1 (depot-side path), group 2 (workspace-side path) and the seven
numeric groups. -/
structure P4Match where
  full : List Char
  g1   : List Char
  g2   : List Char
  stats : StatGroups
deriving DecidableEq

/-- Attempt a match anchored at `s` (the pattern starts with the literal
`//` of group 1). -/
def matchAt (s : List Char) : Option P4Match :=
  (eatLit s "//".toList).bind fun s1 =>
  (tryL1 [] s1).map fun p =>
    let l1chars := p.1
    let sStar := p.2.1
    let g2 := p.2.2.1
    let stats := p.2.2.2.1
    let rest := p.2.2.2.2
    { full := s.take (s.length - rest.length),
      g1 := '/' :: '/' :: (l1chars ++ '.' :: sStar),
      g2 := g2, stats := stats }

/-- Leftmost match: try each starting position from the left; the first
position admitting a match wins (Go regexp leftmost-first semantics). -/
def findMatch : List Char → Option P4Match
  | [] => matchAt []
  | c :: cs =>
    match matchAt (c :: cs) with
    | some m => some m
    | none => findMatch cs

/-- First element of `regexp.FindAllStringSubmatch(out, -1)` for the diff
pattern, i.e. `groups[0]` in src/toolkit.go line 158, or `none` when the
output does not match anywhere. -/
def p4DiffFindFirst (out : List Char) : Option P4Match :=
  findMatch out

/-- Numeric value of a digit run. -/
def digitsToNat (ds : List Char) : Nat :=
  ds.foldl (fun n c => n * 10 + (c.toNat - 48)) 0

/-- Modelled behaviour of `strconv.Atoi` on the strings the call sites can
produce: the regex groups are non-empty `[0-9]+` runs, so sign handling is
irrelevant; values above MaxInt64 yield `ErrRange` (and the call sites only
test the error for being non-nil). -/
def goAtoi (s : List Char) : Except String Int :=
  if s.isEmpty then .error "invalid syntax"
  else if s.all (fun c => c.isDigit) then
    (if digitsToNat s ≤ 2 ^ 63 - 1 then .ok (digitsToNat s : Int)
     else .error "value out of range")
  else .error "invalid syntax"

/-! ### p4DiffHRvsWS (src/toolkit.go lines 117-236) -/

/-- Outcomes of the effectful steps performed by `p4DiffHRvsWS`, in program
order: opening the workspace file, the sequence of reads the line counter
performs on it, the configured workspace and user names, the whitespace
flag, and the combined output and error of the `p4 diff` process. -/
structure P4Env where
  openErr : Option String
  reads : List ReadStep
  workspace : String
  user : String
  diffignorespace : Bool
  cmdOut : List Char
  cmdErr : Option String

/-- The function `p4DiffHRvsWS` (src/toolkit.go lines 117-236).  The named
return value `r` starts at the zero value; `r.NbLinesWS` and `r.Utf16crlf`
are filled from the line counter before any error check; when the regexp
finds no match, `groups[0][0]` on the empty match list is a runtime panic
(index out of range), modelled as `GoRet.crash`.  Note that the source reads
`groups[0][0]` and `groups[0][1]` — the full match and group 1 — into
`fileHR` and `fileWS`, and `groups[0][4]`, `groups[0][6]`, `groups[0][8]`
— the add-lines, deleted-lines and first changed-lines groups — into the
three counts. -/
def p4DiffHRvsWS (env : P4Env) (_fileInDepot _fileInWS : String) :
    GoRet T_DiffRes :=
  match env.openErr with
  | some e => .ret T_DiffRes.zero (some e)
  | none =>
    let lc := lineCounter env.reads
    let r := { T_DiffRes.zero with NbLinesWS := (lc.1 : Int), Utf16crlf := lc.2.1 }
    match lc.2.2 with
    | some e => .ret r (some e)
    | none =>
      if env.workspace.length ≤ 0 then
        .ret r (some "P4 command line error - a workspace needs to be defined")
      else
        match env.cmdErr with
        | some e => .ret r (some ("P4 command line error " ++ e))
        | none =>
          match p4DiffFindFirst env.cmdOut with
          | none => .crash "runtime error: index out of range [0] with length 0"
          | some g =>
            match goAtoi g.stats.addL, goAtoi g.stats.delL, goAtoi g.stats.chgL1 with
            | .ok a, .ok d, .ok c =>
              let r1 := { r with FileHR := String.mk g.full, FileWS := String.mk g.g1 }
              .ret { r1 with AddedLines := a, RemovedLines := d, ChangedLines := c } none
            | _, _, _ => .ret r (some "5 - P4 command line - parsing error")

/-! ### The multiset diff (src/toolkit.go lines 268-345) -/

/-- A line as produced by `bufio.Scanner`; Go strings are byte sequences,
modelled here as character lists (the cut set and separator characters
involved are all ASCII). -/
abbrev Line := List Char

/-- Cut set of `strings.Trim(line, " \t\r\n")` (src/toolkit.go line 297). -/
def goTrimCutset : List Char := [' ', '\t', '\r', '\n']

/-- Go `strings.Trim(line, " \t\r\n")`: remove all leading and trailing
characters of the cut set. -/
def goTrim (l : Line) : Line :=
  ((l.dropWhile (fun c => goTrimCutset.contains c)).reverse.dropWhile
      (fun c => goTrimCutset.contains c)).reverse

/-- Per-line normalisation of the multiset diff: trim when
`p.diffignorespace` is set, identity otherwise (src/toolkit.go
lines 296-298 and 313-315). -/
def procLine (ign : Bool) (l : Line) : Line :=
  if ign then goTrim l else l

/-- Head-revision read loop (src/toolkit.go lines 292-303): builds the
line-frequency table and counts `NbLinesHR`.  Go's `map[string]int` with
`m_lines[line]++` / `m_lines[line]--` is modelled as a multiset of keys
with multiplicities: a key present with value `0` (after decrements) and an
absent key are indistinguishable to the remaining program — both send the
lookup at lines 316-324 to the `AddedLines++` branch, and both contribute
`0` to the final `RemovedLines` sum at lines 333-335. -/
def buildHRLoop (ign : Bool) : List Line → Multiset Line → Nat →
    Multiset Line × Nat
  | [], m, n => (m, n)
  | l :: ls, m, n =>
    let line := procLine ign l
    buildHRLoop ign ls (if line.length > 0 then line ::ₘ m else m) (n + 1)

/-- Workspace scan loop (src/toolkit.go lines 310-326): every line — with
no emptiness guard — is looked up in the table; a found line consumes one
occurrence, otherwise `AddedLines` is incremented; every line counts toward
`NbLinesWS`.  Returns `(remaining table, AddedLines, NbLinesWS)`. -/
def scanWSLoop (ign : Bool) : List Line → Multiset Line → Nat → Nat →
    Multiset Line × Nat × Nat
  | [], m, added, n => (m, added, n)
  | l :: ls, m, added, n =>
    let line := procLine ign l
    if line ∈ m then scanWSLoop ign ls (m.erase line) added (n + 1)
    else scanWSLoop ign ls m (added + 1) (n + 1)

/-- Core of `customDiffHRvsWS` (src/toolkit.go lines 290-335), on the line
sequences the two scanners produce: build the table from the head revision,
scan the workspace, then sum the remaining table values into
`RemovedLines` (the sum of all remaining multiplicities is the cardinality
of the remaining multiset). -/
def customDiffCore (ign : Bool) (hrLines wsLines : List Line) : T_DiffRes :=
  let hr := buildHRLoop ign hrLines 0 0
  let ws := scanWSLoop ign wsLines hr.1 0 0
  { T_DiffRes.zero with
    NbLinesHR := (hr.2 : Int), NbLinesWS := (ws.2.2 : Int),
    AddedLines := (ws.2.1 : Int), RemovedLines := (Multiset.card ws.1 : Int) }

/-- Split on `'\n'`. -/
def splitNL : List Char → List (List Char)
  | [] => [[]]
  | c :: cs =>
    if c = '\n' then [] :: splitNL cs
    else
      match splitNL cs with
      | [] => [[c]]
      | t :: ts => (c :: t) :: ts

/-- Drop one trailing carriage return, as `bufio.ScanLines` does to every
token. -/
def dropCR (l : List Char) : List Char :=
  match l.reverse with
  | '\r' :: rest => rest.reverse
  | _ => l

/-- Token sequence of `bufio.Scanner` with the default `ScanLines` split on
the given content: split on `'\n'`, drop the empty final fragment (a file
ending in a newline — or an empty file — yields no extra token), and strip
one trailing `'\r'` from each token.  The scanner's 64 KiB maximum token
size (lines longer than that make the Go code return a scan error instead
of a result) is not modelled. -/
def scanLines (content : List Char) : List Line :=
  let parts := splitNL content
  let parts := if parts.getLast? = some [] then parts.dropLast else parts
  parts.map dropCR

/-- Success path of `customDiffHRvsWS` (src/toolkit.go lines 268-345) as a
function of the two file contents: both files are read through
`bufio.Scanner` and the loops of `customDiffCore` are run on the resulting
line sequences.  (The error paths — workspace open failure, head-revision
fetch failure, scanner errors — return early with a non-nil error and
produce no diff result; the temp-file cleanup after the comparison does not
affect the returned value.) -/
def customDiffHRvsWS (ign : Bool) (hrContent wsContent : List Char) :
    T_DiffRes :=
  customDiffCore ign (scanLines hrContent) (scanLines wsContent)

/-! ### The orchestrator DiffHRvsWS (src/toolkit.go lines 48-90) -/

/-- The orchestrator `DiffHRvsWS` (src/toolkit.go lines 48-90), as a
function of the algorithm name, the depot file, the result of
`GetP4Where`, and the results of the two inner diff calls.  Faithful
details: the doubling at lines 67-70 is guarded by `res.Utf16crlf` — a
field of the freshly zero-initialised outer result, never assigned from the
inner report — and multiplies by two via `<< 1`; the p4 error path at
line 64 returns the inner `r` while the custom error path at line 79
returns the outer `res`; the inner counts are copied into `res` only in
the custom branch (line 82-83), while the p4 branch only derives
`res.NbLinesHR` from them (line 74). -/
def DiffHRvsWS (algo depotFile : String) (whereRes : String × Option String)
    (p4Res customRes : GoRet T_DiffRes) : GoRet T_DiffRes :=
  let res := { T_DiffRes.zero with FileHR := depotFile, FileWS := whereRes.1 }
  match whereRes.2 with
  | some e => .ret res (some e)
  | none =>
    if algo = "p4" then
      match p4Res with
      | .crash m => .crash m
      | .ret r (some e) => .ret r (some e)
      | .ret r none =>
        let res := if res.Utf16crlf then
            { res with AddedLines := goShl1 r.AddedLines,
                       RemovedLines := goShl1 r.RemovedLines }
          else res
        .ret { res with NbLinesHR := r.NbLinesWS - r.AddedLines + r.RemovedLines }
          none
    else if algo = "custom" then
      match customRes with
      | .crash m => .crash m
      | .ret _ (some e) => .ret res (some e)
      | .ret r none =>
        let res1 := { res with AddedLines := r.AddedLines, RemovedLines := r.RemovedLines }
        .ret { res1 with NbLinesHR := r.NbLinesHR, NbLinesWS := r.NbLinesWS } none
    else
      .ret res (some ("DiffHRvsWS() - Invalid algorithm name: " ++ algo))

/-! ### Derived notions used to state the properties -/

/-- All lines after the per-line normalisation. -/
def processedLines (ign : Bool) (ls : List Line) : List Line :=
  ls.map (procLine ign)

/-- The non-empty lines of a line sequence (the ones that participate in
the head-revision table). -/
def nonEmptyLines (ls : List Line) : List Line :=
  ls.filter (fun l => decide (l.length > 0))

/-- Number of empty lines in a line sequence. -/
def emptyLineCount (ls : List Line) : Nat :=
  (ls.filter (fun l => decide (l.length = 0))).length

/-! ### Concrete inputs used by the individual claims -/

/-- Inner summary-diff report with a five-line workspace file and no
changes, as `p4DiffHRvsWS` would return it for an unchanged file. -/
def c1Report : T_DiffRes := { T_DiffRes.zero with NbLinesWS := 5 }

/-- Orchestrator run on that report, with every effect succeeding. -/
def c1Result : GoRet T_DiffRes :=
  DiffHRvsWS "p4" "//depot/a/b.txt" ("/ws/a/b.txt", none)
    (.ret c1Report none) (.ret T_DiffRes.zero none)

/-- Reads of a UTF-16-LE workspace file whose first bytes are a CR/LF pair:
the line counter reports one line and detects UTF-16 CR/LF. -/
def c2Reads : List ReadStep := [([13, 0, 10, 0, 97, 0], some .eof)]

/-- Well-formed tool output reporting 3 added and 2 removed lines. -/
def c2Out : List Char :=
  ("==== //depot/loc/file.json#7 - /ws/loc/file.json ====\n" ++
   "add 1 chunks 3 lines\ndeleted 1 chunks 2 lines\n" ++
   "changed 0 chunks 0 / 0 lines\n").toList

/-- Environment for the UTF-16 CR/LF summary-diff run: every effect
succeeds, the workspace file is UTF-16-LE CR/LF, the tool reports
addedLines=3 and removedLines=2. -/
def c2Env : P4Env :=
  { openErr := none, reads := c2Reads, workspace := "my_ws", user := "usr",
    diffignorespace := false, cmdOut := c2Out, cmdErr := none }

/-- The inner summary-diff call on that environment. -/
def c2Inner : GoRet T_DiffRes :=
  p4DiffHRvsWS c2Env "//depot/loc/file.json" "/ws/loc/file.json"

/-- The orchestrator run on that inner result. -/
def c2Final : GoRet T_DiffRes :=
  DiffHRvsWS "p4" "//depot/loc/file.json" ("/ws/loc/file.json", none)
    c2Inner (.ret T_DiffRes.zero none)

/-- Malformed tool output: the `changed` statistics line is missing. -/
def c4Out : List Char :=
  ("==== //depot/dir/file.txt#3 - /home/ws/file.txt ====\n" ++
   "add 1 chunks 2 lines\ndeleted 1 chunks 1 lines\n").toList

/-- Environment in which every effect before parsing succeeds but the tool
output lacks the `changed` line. -/
def c4Env : P4Env :=
  { openErr := none, reads := [([97, 10], some .eof)], workspace := "my_ws",
    user := "usr", diffignorespace := false, cmdOut := c4Out, cmdErr := none }

/-- File content with an empty line between two non-empty ones. -/
def c5Content : List Char := ['a', '\n', '\n', 'b']

/-- Head-revision lines `[A, B, C]`. -/
def c9HR : List Line := [['A'], ['B'], ['C']]

/-- Workspace lines `[C, B, A]`: the same multiset in a different order. -/
def c9WS : List Line := [['C'], ['B'], ['A']]

/-- Reads of a 3-line file without a trailing newline
(`"a\nb\nc"` as bytes). -/
def c7Reads : List ReadStep := [([97, 10, 98, 10, 99], some .eof)]

/-- Reads in which the UTF-16-LE CR/LF sequence `[13, 0, 10, 0]` is split
across two read chunks. -/
def c8Reads : List ReadStep := [([13], none), ([0, 10, 0], some .eof)]

/-- Reads in which the UTF-16-LE CR/LF sequence arrives inside a single
chunk. -/
def c8WReads : List ReadStep := [([13, 0, 10, 0], some .eof)]

/-- Reads delivering two newline bytes and then a read failure. -/
def c10Reads : List ReadStep :=
  [([10, 10], none), ([], some (.fail "read error: input/output error"))]

/-- Environment whose workspace-file reads end in a read failure. -/
def c10Env : P4Env :=
  { openErr := none, reads := c10Reads, workspace := "my_ws", user := "usr",
    diffignorespace := false, cmdOut := [], cmdErr := none }

/-! ## Helper lemmas about the line counter -/

theorem countOcc_append (a b : List Nat) (x : Nat) :
    countOcc (a ++ b) x = countOcc a x + countOcc b x := by
  simp [countOcc, List.countP_append]

theorem updFlag_true (data : List Nat) : updFlag true data = true := rfl

theorem updFlag_detect (u : Bool) (data : List Nat)
    (h : containsSeq data utf16LESep = true ∨ containsSeq data utf16BESep = true) :
    updFlag u data = true := by
  cases u with
  | true => rfl
  | false =>
    rcases h with h | h <;> simp [updFlag, h]

/-- Once the flag is set it is never cleared: the loop started with a set
flag always reports a set flag. -/
theorem lcLoop_true_sticky (reads : List ReadStep) (n : Nat) :
    (lineCounterLoop reads n true).2.1 = true := by
  induction reads generalizing n with
  | nil => rfl
  | cons step rest ih =>
    obtain ⟨data, e⟩ := step
    match e with
    | none => simpa [lineCounterLoop, updFlag_true] using ih (n + countOcc data 10)
    | some .eof => simp [lineCounterLoop, updFlag_true]
    | some (.fail msg) => simp [lineCounterLoop, updFlag_true]

/-- On a stream with no read failure, the loop adds exactly the number of
newline bytes among the delivered bytes and reports no error. -/
theorem lcLoop_ok (reads : List ReadStep) (n : Nat) (u : Bool)
    (h : hasFailure reads = false) :
    (lineCounterLoop reads n u).1 = n + countOcc (delivered reads) 10 ∧
    (lineCounterLoop reads n u).2.2 = none := by
  induction reads generalizing n u with
  | nil => simp [lineCounterLoop, delivered, processedChunks, countOcc]
  | cons step rest ih =>
    obtain ⟨data, e⟩ := step
    match e with
    | none =>
      have h' : hasFailure rest = false := by simpa [hasFailure] using h
      have := ih (n + countOcc data 10) (updFlag u data) h'
      constructor
      · rw [show (lineCounterLoop ((data, none) :: rest) n u)
              = lineCounterLoop rest (n + countOcc data 10) (updFlag u data) from rfl,
           this.1]
        simp [delivered, processedChunks, countOcc_append]
        omega
      · exact this.2
    | some .eof =>
      simp [lineCounterLoop, delivered, processedChunks, countOcc_append, countOcc]
    | some (.fail msg) => simp [hasFailure] at h

/-- On a stream with a read failure, the loop reports a non-`none` error. -/
theorem lcLoop_fail (reads : List ReadStep) (n : Nat) (u : Bool)
    (h : hasFailure reads = true) :
    ((lineCounterLoop reads n u).2.2).isSome = true := by
  induction reads generalizing n u with
  | nil => simp [hasFailure] at h
  | cons step rest ih =>
    obtain ⟨data, e⟩ := step
    match e with
    | none =>
      have h' : hasFailure rest = true := by simpa [hasFailure] using h
      simpa [lineCounterLoop] using ih (n + countOcc data 10) (updFlag u data) h'
    | some .eof => simp [hasFailure] at h
    | some (.fail msg) => simp [lineCounterLoop]

/-- If one of the separator sequences occurs inside a chunk the loop
actually processes, the returned flag is set. -/
theorem lcLoop_detect (reads : List ReadStep) (n : Nat) (u : Bool) (d : List Nat)
    (hmem : d ∈ processedChunks reads)
    (hdet : containsSeq d utf16LESep = true ∨ containsSeq d utf16BESep = true) :
    (lineCounterLoop reads n u).2.1 = true := by
  induction reads generalizing n u with
  | nil => simp [processedChunks] at hmem
  | cons step rest ih =>
    obtain ⟨data, e⟩ := step
    match e with
    | none =>
      rcases (by simpa [processedChunks] using hmem : d = data ∨ d ∈ processedChunks rest) with
        rfl | hmem'
      · have : updFlag u d = true := updFlag_detect u d hdet
        rw [show (lineCounterLoop ((d, none) :: rest) n u)
              = lineCounterLoop rest (n + countOcc d 10) (updFlag u d) from rfl, this]
        exact lcLoop_true_sticky rest (n + countOcc d 10)
      · exact ih _ _ hmem'
    | some .eof =>
      have : d = data := by simpa [processedChunks] using hmem
      subst this
      simpa [lineCounterLoop] using updFlag_detect u d hdet
    | some (.fail msg) =>
      have : d = data := by simpa [processedChunks] using hmem
      subst this
      simpa [lineCounterLoop] using updFlag_detect u d hdet

/-! ## Claim C7 -/

/-- C7: on every stream whose reads succeed, `lineCounter` returns exactly
the number of `\n` (0x0A) bytes among the delivered bytes (and no error),
so a trailing line without a terminator is not counted: the 3-line stream
`"a\nb\nc"`, which ends without a newline, yields a count of 2. -/
theorem lineCounter_counts_newline_bytes (reads : List ReadStep)
    (h : hasFailure reads = false) :
    (lineCounter reads).1 = countOcc (delivered reads) 10 ∧
    (lineCounter reads).2.2 = none ∧
    (lineCounter c7Reads).1 = 2 := by
  refine ⟨?_, (lcLoop_ok reads 0 false h).2, by decide⟩
  have := (lcLoop_ok reads 0 false h).1
  simpa [lineCounter] using this

theorem lineCounter_counts_newline_bytes_witness :
    hasFailure c7Reads = false ∧
    (lineCounter c7Reads).1 = countOcc (delivered c7Reads) 10 :=
  ⟨by decide, (lineCounter_counts_newline_bytes c7Reads (by decide)).1⟩

/-! ## Claim C8 -/

/-- C8 falls on chunk boundaries: in the stream `[13]` then `[0, 10, 0]`
the UTF-16-LE CR/LF sequence occurs in the delivered bytes, yet the
detection — which inspects each read's buffer separately
(src/toolkit.go line 363) — returns `isUtf16CrLf = false`. -/
theorem lineCounter_utf16_split_chunk_missed :
    containsSeq (delivered c8Reads) utf16LESep = true ∧
    (lineCounter c8Reads).2.1 = false := by
  decide

/-- C8 amended: if the UTF-16-LE or UTF-16-BE CR/LF byte sequence occurs
inside a single read's chunk (rather than merely anywhere in the
concatenated stream), the returned `isUtf16CrLf` flag is true; and once the
flag becomes true during the scan it stays true for the remainder of the
scan. -/
theorem lineCounter_utf16_within_chunk (reads : List ReadStep) (d : List Nat)
    (hmem : d ∈ processedChunks reads)
    (hdet : containsSeq d utf16LESep = true ∨ containsSeq d utf16BESep = true) :
    (lineCounter reads).2.1 = true ∧
    ∀ rs n, (lineCounterLoop rs n true).2.1 = true :=
  ⟨lcLoop_detect reads 0 false d hmem hdet, fun rs n => lcLoop_true_sticky rs n⟩

theorem lineCounter_utf16_within_chunk_witness :
    [13, 0, 10, 0] ∈ processedChunks c8WReads ∧
    (lineCounter c8WReads).2.1 = true :=
  ⟨by decide,
   (lineCounter_utf16_within_chunk c8WReads [13, 0, 10, 0] (by decide)
      (Or.inl (by decide))).1⟩

/-! ## Claim C10 -/

/-- C10 falls on the word "discarded": after two newline bytes and a read
failure, `lineCounter` returns the partial count 2 — accumulated up to the
failure point — in its count component, alongside the non-nil error; the
partial count is returned, not discarded. -/
theorem lineCounter_partial_count_returned :
    (lineCounter c10Reads).1 = 2 ∧
    ((lineCounter c10Reads).2.2).isSome = true := by
  decide

/-- C10 amended: any read error other than end-of-stream makes
`lineCounter` return a non-nil error, and `p4DiffHRvsWS` propagates it, so
the caller never receives a truncated count as a successful result (the
partial count is present in the returned values, but always accompanied by
the error). -/
theorem lineCounter_read_error_aborts (env : P4Env) (f w : String)
    (h : hasFailure env.reads = true) (hopen : env.openErr = none) :
    ((lineCounter env.reads).2.2).isSome = true ∧
    (retErr (p4DiffHRvsWS env f w)).isSome = true := by
  have h1 := lcLoop_fail env.reads 0 false h
  refine ⟨h1, ?_⟩
  obtain ⟨msg, hmsg⟩ := Option.isSome_iff_exists.1 h1
  have hmsg' : (lineCounter env.reads).2.2 = some msg := hmsg
  simp [p4DiffHRvsWS, hopen, hmsg', retErr]

theorem lineCounter_read_error_aborts_witness :
    hasFailure c10Env.reads = true ∧ c10Env.openErr = none ∧
    (retErr (p4DiffHRvsWS c10Env "//depot/x.txt" "/ws/x.txt")).isSome = true :=
  ⟨by decide, rfl,
   (lineCounter_read_error_aborts c10Env "//depot/x.txt" "/ws/x.txt"
      (by decide) rfl).2⟩

/-! ## Claim C1 -/

/-- C1 falls on the returned fields: an unchanged five-line workspace file
(inner report `NbLinesWS = 5`, no added or removed lines) makes the
orchestrator return `NbLinesHR = 5` while the returned `NbLinesWS`,
`AddedLines` and `RemovedLines` fields are all zero, so
`headLineCount == workspaceLineCount - addedLines + removedLines` fails
on the returned result (`5 ≠ 0`). -/
theorem diff_p4_identity_fails_on_returned_fields :
    retErr c1Result = none ∧ (retVal c1Result).NbLinesHR = 5 ∧
    ¬ ((retVal c1Result).NbLinesHR
        = (retVal c1Result).NbLinesWS - (retVal c1Result).AddedLines
          + (retVal c1Result).RemovedLines) := by
  decide

/-- C1 amended: for every successful summary-diff run of the orchestrator,
the returned `NbLinesHR` equals `workspaceLineCount - addedLines +
removedLines` computed from the fields of the inner parser's raw report
`r` (src/toolkit.go line 74) — not from the returned fields, which stay
zero. -/
theorem diff_p4_identity_on_raw_report (depotFile wsPath : String)
    (r : T_DiffRes) (cRes : GoRet T_DiffRes) :
    retErr (DiffHRvsWS "p4" depotFile (wsPath, none) (.ret r none) cRes) = none ∧
    (retVal (DiffHRvsWS "p4" depotFile (wsPath, none) (.ret r none) cRes)).NbLinesHR
      = r.NbLinesWS - r.AddedLines + r.RemovedLines :=
  ⟨rfl, rfl⟩

/-! ## Claim C3 -/

/-- C3: every successful `DiffHRvsWS` call with algorithm `"p4"` returns a
result whose `AddedLines`, `RemovedLines`, `ChangedLines` and `NbLinesWS`
are zero and whose `Utf16crlf` is false — the inner parser's counts and
flag are never copied out (the doubling at src/toolkit.go lines 67-70 is
guarded by the always-false `res.Utf16crlf`); only `NbLinesHR` is derived
from them, and the two label fields are set. -/
theorem diff_p4_returns_zero_counts (depotFile wsPath : String)
    (r : T_DiffRes) (cRes : GoRet T_DiffRes) :
    retErr (DiffHRvsWS "p4" depotFile (wsPath, none) (.ret r none) cRes) = none ∧
    (retVal (DiffHRvsWS "p4" depotFile (wsPath, none) (.ret r none) cRes)).AddedLines = 0 ∧
    (retVal (DiffHRvsWS "p4" depotFile (wsPath, none) (.ret r none) cRes)).RemovedLines = 0 ∧
    (retVal (DiffHRvsWS "p4" depotFile (wsPath, none) (.ret r none) cRes)).ChangedLines = 0 ∧
    (retVal (DiffHRvsWS "p4" depotFile (wsPath, none) (.ret r none) cRes)).NbLinesWS = 0 ∧
    (retVal (DiffHRvsWS "p4" depotFile (wsPath, none) (.ret r none) cRes)).Utf16crlf = false ∧
    (retVal (DiffHRvsWS "p4" depotFile (wsPath, none) (.ret r none) cRes)).FileHR = depotFile ∧
    (retVal (DiffHRvsWS "p4" depotFile (wsPath, none) (.ret r none) cRes)).FileWS = wsPath ∧
    (retVal (DiffHRvsWS "p4" depotFile (wsPath, none) (.ret r none) cRes)).NbLinesHR
      = r.NbLinesWS - r.AddedLines + r.RemovedLines :=
  ⟨rfl, rfl, rfl, rfl, rfl, rfl, rfl, rfl, rfl⟩

/-! ## Claim C2 -/

/-- C2 is a code bug: with a UTF-16-LE CR/LF workspace file the inner
summary-diff call reports `Utf16crlf = true`, `AddedLines = 3`,
`RemovedLines = 2`, yet the orchestrator — whose doubling branch at
src/toolkit.go lines 67-70 tests the never-assigned outer `res.Utf16crlf`
instead of the inner report's flag — returns `AddedLines = 0`,
`RemovedLines = 0` and `Utf16crlf = false` rather than the corrected
`6`/`4`: no correction is ever applied, contradicting the code's own
comments (lines 38-39 and 67). -/
theorem diff_p4_utf16_correction_never_applied :
    retErr c2Inner = none ∧ (retVal c2Inner).Utf16crlf = true ∧
    (retVal c2Inner).AddedLines = 3 ∧ (retVal c2Inner).RemovedLines = 2 ∧
    retErr c2Final = none ∧ (retVal c2Final).AddedLines = 0 ∧
    (retVal c2Final).RemovedLines = 0 ∧ (retVal c2Final).Utf16crlf = false := by
  refine ⟨rfl, rfl, ?_, ?_, rfl, rfl, rfl, rfl⟩ <;> rfl

/-! ## Claim C4 -/

/-- C4 is a code bug: on tool output missing the `changed` statistics line
the pattern has no match, `FindAllStringSubmatch` returns an empty match
list, and `groups[0][0]` at src/toolkit.go line 218 is an out-of-range
index: `p4DiffHRvsWS` crashes with a runtime panic instead of returning a
parse-format error. -/
theorem diff_p4_parse_missing_changed_line_panics :
    p4DiffFindFirst c4Out = none ∧
    isCrash (p4DiffHRvsWS c4Env "//depot/dir/file.txt" "/home/ws/file.txt")
      = true :=
  ⟨rfl, rfl⟩

/-! ## Helper lemmas about the multiset diff -/

theorem cons_le_erase {α : Type} [DecidableEq α] {a : α} {s t : Multiset α}
    (h : a ::ₘ s ≤ t) : s ≤ t.erase a := by
  rw [Multiset.le_iff_count] at h ⊢
  intro b
  by_cases hb : b = a
  · subst hb
    have hc := h b
    rw [Multiset.count_cons_self] at hc
    rw [Multiset.count_erase_self]
    omega
  · have hc := h b
    rw [Multiset.count_cons_of_ne hb] at hc
    rw [Multiset.count_erase_of_ne hb]
    omega

/-- The head-revision loop adds to the table exactly the non-empty
normalised lines (as a multiset) and adds the number of lines to the
counter. -/
theorem buildHRLoop_eq (ign : Bool) (ls : List Line) (m : Multiset Line)
    (n : Nat) :
    buildHRLoop ign ls m n
      = (m + ↑(nonEmptyLines (processedLines ign ls)), n + ls.length) := by
  induction ls generalizing m n with
  | nil => simp [buildHRLoop, nonEmptyLines, processedLines]
  | cons l ls ih =>
    by_cases hl : (procLine ign l).length > 0
    · have hne : nonEmptyLines (processedLines ign (l :: ls))
          = procLine ign l :: nonEmptyLines (processedLines ign ls) := by
        simp only [processedLines, List.map_cons, nonEmptyLines, List.filter_cons]
        rw [if_pos (decide_eq_true hl)]
      rw [show buildHRLoop ign (l :: ls) m n
            = buildHRLoop ign ls (procLine ign l ::ₘ m) (n + 1) by
          simp [buildHRLoop, hl], ih, hne]
      simp only [Prod.mk.injEq, List.length_cons, ← Multiset.cons_coe,
        Multiset.cons_add, Multiset.add_cons]
      exact ⟨trivial, by omega⟩
    · have hne : nonEmptyLines (processedLines ign (l :: ls))
          = nonEmptyLines (processedLines ign ls) := by
        simp only [processedLines, List.map_cons, nonEmptyLines, List.filter_cons]
        rw [if_neg (by simpa using hl)]
      rw [show buildHRLoop ign (l :: ls) m n = buildHRLoop ign ls m (n + 1) by
          simp [buildHRLoop, hl], ih, hne]
      simp only [Prod.mk.injEq, List.length_cons]
      exact ⟨trivial, by omega⟩

/-- The workspace loop's `NbLinesWS` component counts every line. -/
theorem scanWS_count (ign : Bool) (ls : List Line) (m : Multiset Line)
    (a n : Nat) : (scanWSLoop ign ls m a n).2.2 = n + ls.length := by
  induction ls generalizing m a n with
  | nil => simp [scanWSLoop]
  | cons l ls ih =>
    by_cases hm : procLine ign l ∈ m
    · rw [show scanWSLoop ign (l :: ls) m a n
            = scanWSLoop ign ls (m.erase (procLine ign l)) a (n + 1) by
          simp [scanWSLoop, hm], ih]
      simp only [List.length_cons]
      omega
    · rw [show scanWSLoop ign (l :: ls) m a n
            = scanWSLoop ign ls m (a + 1) (n + 1) by simp [scanWSLoop, hm], ih]
      simp only [List.length_cons]
      omega

/-- The workspace loop's accumulators only shift its results. -/
theorem scanWS_shift (ign : Bool) (ls : List Line) (m : Multiset Line)
    (a n : Nat) :
    scanWSLoop ign ls m a n
      = ((scanWSLoop ign ls m 0 0).1, a + (scanWSLoop ign ls m 0 0).2.1,
         n + (scanWSLoop ign ls m 0 0).2.2) := by
  induction ls generalizing m a n with
  | nil => simp [scanWSLoop]
  | cons l ls ih =>
    by_cases hm : procLine ign l ∈ m
    · rw [show scanWSLoop ign (l :: ls) m a n
            = scanWSLoop ign ls (m.erase (procLine ign l)) a (n + 1) by
          simp [scanWSLoop, hm],
         show scanWSLoop ign (l :: ls) m 0 0
            = scanWSLoop ign ls (m.erase (procLine ign l)) 0 1 by
          simp [scanWSLoop, hm],
         ih (m.erase (procLine ign l)) a (n + 1),
         ih (m.erase (procLine ign l)) 0 1]
      simp only [Prod.mk.injEq]
      exact ⟨trivial, by omega, by omega⟩
    · rw [show scanWSLoop ign (l :: ls) m a n
            = scanWSLoop ign ls m (a + 1) (n + 1) by simp [scanWSLoop, hm],
         show scanWSLoop ign (l :: ls) m 0 0
            = scanWSLoop ign ls m 1 1 by simp [scanWSLoop, hm],
         ih m (a + 1) (n + 1), ih m 1 1]
      simp only [Prod.mk.injEq]
      exact ⟨trivial, by omega, by omega⟩

/-- Full description of the workspace scan when the table contains no
empty line and at least as many copies of every non-empty normalised
workspace line as the workspace has: no line is counted as added except
the empty ones, and exactly the scanned lines are removed from the
table. -/
theorem scanWS_run (ign : Bool) (ls : List Line) (m : Multiset Line)
    (a n : Nat) (h0 : ([] : Line) ∉ m)
    (hle : ↑(nonEmptyLines (processedLines ign ls)) ≤ m) :
    scanWSLoop ign ls m a n
      = (m - ↑(nonEmptyLines (processedLines ign ls)),
         a + emptyLineCount (processedLines ign ls), n + ls.length) := by
  induction ls generalizing m a n with
  | nil => simp [scanWSLoop, nonEmptyLines, processedLines, emptyLineCount]
  | cons l ls ih =>
    by_cases hl : (procLine ign l).length = 0
    · have hnil : procLine ign l = [] := List.length_eq_zero.1 hl
      have hne : nonEmptyLines (processedLines ign (l :: ls))
          = nonEmptyLines (processedLines ign ls) := by
        simp only [processedLines, List.map_cons, nonEmptyLines, List.filter_cons]
        rw [if_neg (by simp [hl])]
      have hec : emptyLineCount (processedLines ign (l :: ls))
          = emptyLineCount (processedLines ign ls) + 1 := by
        simp only [processedLines, List.map_cons, emptyLineCount, List.filter_cons]
        rw [if_pos (by simp [hl])]
        simp
      have hnm : procLine ign l ∉ m := by rw [hnil]; exact h0
      rw [show scanWSLoop ign (l :: ls) m a n
            = scanWSLoop ign ls m (a + 1) (n + 1) by simp [scanWSLoop, hnm],
         ih m (a + 1) (n + 1) h0 (by rw [← hne]; exact hle), hne, hec]
      simp only [Prod.mk.injEq, List.length_cons]
      exact ⟨trivial, by omega, by omega⟩
    · have hne : nonEmptyLines (processedLines ign (l :: ls))
          = procLine ign l :: nonEmptyLines (processedLines ign ls) := by
        simp only [processedLines, List.map_cons, nonEmptyLines, List.filter_cons]
        rw [if_pos (by simp; omega)]
      have hcons : (procLine ign l) ::ₘ ↑(nonEmptyLines (processedLines ign ls)) ≤ m := by
        rw [Multiset.cons_coe, ← hne]
        exact hle
      have hmem : procLine ign l ∈ m :=
        Multiset.mem_of_le hcons (Multiset.mem_cons_self _ _)
      have h0' : ([] : Line) ∉ m.erase (procLine ign l) :=
        fun hc => h0 (Multiset.mem_of_le (Multiset.erase_le _ _) hc)
      have hec : emptyLineCount (processedLines ign (l :: ls))
          = emptyLineCount (processedLines ign ls) := by
        simp only [processedLines, List.map_cons, emptyLineCount, List.filter_cons]
        rw [if_neg (by simp [hl])]
      rw [show scanWSLoop ign (l :: ls) m a n
            = scanWSLoop ign ls (m.erase (procLine ign l)) a (n + 1) by
          simp [scanWSLoop, hmem],
         ih (m.erase (procLine ign l)) a (n + 1) h0' (cons_le_erase hcons),
         hne, hec]
      simp only [Prod.mk.injEq, List.length_cons]
      refine ⟨?_, trivial, by omega⟩
      rw [← Multiset.cons_coe, Multiset.sub_cons]

/-! ## Shared facts about the non-empty-line table -/

theorem mem_nonEmptyLines_pos {x : Line} {ls : List Line}
    (h : x ∈ nonEmptyLines ls) : x.length > 0 := by
  have hx := (List.mem_filter.1 h).2
  simpa using hx

theorem nil_not_mem_nonEmpty (ls : List Line) :
    ([] : Line) ∉ (↑(nonEmptyLines ls) : Multiset Line) := by
  rw [Multiset.mem_coe]
  intro h
  exact absurd (mem_nonEmptyLines_pos h) (by simp)

theorem buildHRLoop_zero (ign : Bool) (ls : List Line) :
    buildHRLoop ign ls 0 0
      = (↑(nonEmptyLines (processedLines ign ls)), ls.length) := by
  rw [buildHRLoop_eq]
  simp

/-! ## Claim C5 -/

/-- C5 falls on empty lines: the content `"a\n\nb"` — identical on both
sides — produces `addedLines = 1`, because its empty middle line is looked
up in the table (where empty lines never appear) and counted as added. -/
theorem customDiff_identical_content_counter :
    (customDiffHRvsWS false c5Content c5Content).AddedLines = 1 ∧
    ¬ ((customDiffHRvsWS false c5Content c5Content).AddedLines = 0) := by
  decide

/-- C5 amended: on byte-identical head-revision and workspace content the
multiset diff returns `removedLines = 0` and `workspaceLineCount =
headLineCount`, and `addedLines` equals the number of empty lines (after
the optional trim) of the content — in particular it is `0` exactly when
the content has no empty lines, but not in general, because the workspace
scan (src/toolkit.go lines 311-326) has no emptiness guard and counts
every empty workspace line as added. -/
theorem customDiff_identical_content (ign : Bool) (content : List Char) :
    (customDiffHRvsWS ign content content).RemovedLines = 0 ∧
    (customDiffHRvsWS ign content content).NbLinesHR
      = (customDiffHRvsWS ign content content).NbLinesWS ∧
    (customDiffHRvsWS ign content content).AddedLines
      = (emptyLineCount (processedLines ign (scanLines content)) : Int) := by
  have h0 := nil_not_mem_nonEmpty (processedLines ign (scanLines content))
  have hrun := scanWS_run ign (scanLines content)
      (↑(nonEmptyLines (processedLines ign (scanLines content)))) 0 0 h0 le_rfl
  refine ⟨?_, ?_, ?_⟩ <;>
    simp [customDiffHRvsWS, customDiffCore, buildHRLoop_zero, hrun, tsub_self]

/-! ## Claim C9 -/

/-- C9: when head revision and workspace hold the same multiset of
non-empty (after the optional trim) lines — in any order — the multiset
diff reports no added and no removed lines. -/
theorem customDiff_order_insensitive (ign : Bool) (hr ws : List Line)
    (h1 : ∀ l ∈ hr, (procLine ign l).length > 0)
    (h2 : ∀ l ∈ ws, (procLine ign l).length > 0)
    (h3 : (↑(processedLines ign hr) : Multiset Line)
        = ↑(processedLines ign ws)) :
    (customDiffCore ign hr ws).AddedLines = 0 ∧
    (customDiffCore ign hr ws).RemovedLines = 0 := by
  have e1 : nonEmptyLines (processedLines ign hr) = processedLines ign hr := by
    refine List.filter_eq_self.2 ?_
    intro a ha
    obtain ⟨l, hl, rfl⟩ := List.mem_map.1 ha
    exact decide_eq_true (h1 l hl)
  have e2 : nonEmptyLines (processedLines ign ws) = processedLines ign ws := by
    refine List.filter_eq_self.2 ?_
    intro a ha
    obtain ⟨l, hl, rfl⟩ := List.mem_map.1 ha
    exact decide_eq_true (h2 l hl)
  have hEC : emptyLineCount (processedLines ign ws) = 0 := by
    have hnil : (processedLines ign ws).filter (fun l => decide (l.length = 0))
        = [] := by
      refine List.filter_eq_nil_iff.2 ?_
      intro a ha
      obtain ⟨l, hl, rfl⟩ := List.mem_map.1 ha
      have hp := h2 l hl
      simp only [decide_eq_true_eq]
      omega
    simp only [emptyLineCount]
    rw [hnil]
    rfl
  have h0 := nil_not_mem_nonEmpty (processedLines ign hr)
  have hle : (↑(nonEmptyLines (processedLines ign ws)) : Multiset Line)
      ≤ ↑(nonEmptyLines (processedLines ign hr)) :=
    le_of_eq (by rw [e1, e2, h3])
  have hrun := scanWS_run ign ws
      (↑(nonEmptyLines (processedLines ign hr))) 0 0 h0 hle
  have hzero : (↑(nonEmptyLines (processedLines ign hr)) : Multiset Line)
      - ↑(nonEmptyLines (processedLines ign ws)) = 0 := by
    rw [e1, e2, h3, tsub_self]
  refine ⟨?_, ?_⟩ <;>
    simp [customDiffCore, buildHRLoop_zero, hrun, hzero, hEC]

theorem customDiff_order_insensitive_witness :
    (∀ l ∈ c9HR, (procLine false l).length > 0) ∧
    (∀ l ∈ c9WS, (procLine false l).length > 0) ∧
    (↑(processedLines false c9HR) : Multiset Line)
      = ↑(processedLines false c9WS) ∧
    (customDiffCore false c9HR c9WS).AddedLines = 0 ∧
    (customDiffCore false c9HR c9WS).RemovedLines = 0 :=
  ⟨by decide, by decide, by decide,
   (customDiff_order_insensitive false c9HR c9WS (by decide) (by decide)
      (by decide)).1,
   (customDiff_order_insensitive false c9HR c9WS (by decide) (by decide)
      (by decide)).2⟩

/-! ## Claim C6 -/

/-- C6 falls on the workspace side: with head revision `[a]` and workspace
consisting of one empty line, the scan looks the empty line up, misses, and
reports `addedLines = 1` — the empty workspace line is counted as added,
not excluded from matching. -/
theorem customDiff_empty_ws_line_counter :
    (customDiffCore false [['a']] [[]]).AddedLines = 1 ∧
    ¬ ((customDiffCore false [['a']] [[]]).AddedLines = 0) := by
  decide

/-- C6 amended: empty (after the optional trim) lines never enter the
head-revision table and both sides count them toward the line counts, but
on the workspace side they are looked up like any other line and — being
absent from the table — each empty workspace line increments `addedLines`
by exactly one. -/
theorem customDiff_empty_line_handling (ign : Bool) (hr ws : List Line)
    (l : Line) (hl : (procLine ign l).length = 0) :
    (∀ x ∈ (buildHRLoop ign hr 0 0).1, x.length > 0) ∧
    (buildHRLoop ign hr 0 0).2 = hr.length ∧
    (customDiffCore ign hr ws).NbLinesWS = (ws.length : Int) ∧
    (customDiffCore ign hr (l :: ws)).NbLinesWS = (ws.length : Int) + 1 ∧
    (customDiffCore ign hr (l :: ws)).AddedLines
      = (customDiffCore ign hr ws).AddedLines + 1 := by
  have hnil : procLine ign l = [] := List.length_eq_zero.1 hl
  have h0 : procLine ign l
      ∉ (↑(nonEmptyLines (processedLines ign hr)) : Multiset Line) := by
    rw [hnil]
    exact nil_not_mem_nonEmpty _
  refine ⟨?_, ?_, ?_, ?_, ?_⟩
  · rw [buildHRLoop_zero]
    intro x hx
    exact mem_nonEmptyLines_pos (Multiset.mem_coe.1 hx)
  · rw [buildHRLoop_zero]
  · simp [customDiffCore, scanWS_count]
  · simp only [customDiffCore, scanWS_count, List.length_cons]
    push_cast
    ring
  · have hstep : scanWSLoop ign (l :: ws)
        (↑(nonEmptyLines (processedLines ign hr))) 0 0
        = scanWSLoop ign ws (↑(nonEmptyLines (processedLines ign hr))) 1 1 := by
      simp [scanWSLoop, h0]
    have hshift := scanWS_shift ign ws
        (↑(nonEmptyLines (processedLines ign hr))) 1 1
    simp only [customDiffCore, buildHRLoop_zero, hstep, hshift]
    push_cast
    ring

theorem customDiff_empty_line_handling_witness :
    (procLine false ([] : Line)).length = 0 ∧
    (customDiffCore false [['a']] ([] :: [['b']])).AddedLines
      = (customDiffCore false [['a']] [['b']]).AddedLines + 1 :=
  ⟨by decide,
   (customDiff_empty_line_handling false [['a']] [['b']] [] (by decide)).2.2.2.2⟩

end GoPerforce
